import Mathlib

/-!
Verification of the crusade voting platform core: a shallow embedding of the
schema, row-level policies, stored procedures and client hooks that implement
vote casting, tally maintenance and administrative bulk-tally operations.

Source artifacts embedded here:
* table definitions and constraints for elections, candidate_lists and votes
  (migration with one_vote_per_user_per_election, the composite constraint
  votes_candidate_list_matches_election and the unique votes_receipt_hash_idx);
* jwt_roles, is_admin, is_committee (JWT role helpers);
* make_receipt, votes_after_insert (tally trigger) and the cast_vote RPC;
* the votes_insert / votes_select row-level policies;
* admin_apply_simulation and admin_reset_election_votes;
* the client hook useVoting.ts (checkEligibility, hasAlreadyVoted, castVote).

Identifiers (uuids) and receipt tokens are modelled as strings; counters are
integers, matching the integer columns of the schema.  Columns that no claim
touches (titles, descriptions, timestamps, the confirmed flag) are projected
away.  Each stored procedure runs in a single transaction, so it is modelled
as a total function from a database state to either an error or a complete
successor state: an error changes nothing, which is exactly the all-or-nothing
transaction semantics.
-/

namespace Crusade

/-- The election_status enum type, in the order of its declaration. -/
inductive ElectionStatus where
  | draft
  | scheduled
  | campaign
  | voting_open
  | paused
  | voting_closed
  | results_published
  deriving DecidableEq, Repr

/-- A row of public.elections (claim-relevant columns). -/
structure Election where
  id : String
  status : ElectionStatus
  total_votes : Int
  deriving DecidableEq, Repr

/-- A row of public.candidate_lists (claim-relevant columns). -/
structure CandidateList where
  id : String
  election_id : String
  votes_count : Int
  deriving DecidableEq, Repr

/-- A row of public.votes (claim-relevant columns). -/
structure Vote where
  id : String
  election_id : String
  candidate_list_id : String
  user_id : String
  receipt_hash : String
  deriving DecidableEq, Repr

/-- The database state: the three tables of the voting core. -/
structure DB where
  elections : List Election
  candidate_lists : List CandidateList
  votes : List Vote
  deriving DecidableEq, Repr

/-- The role claims carried on a JWT: the roles arrays found under
app_metadata and user_metadata, each possibly absent. -/
structure Jwt where
  app_metadata_roles : Option (List String)
  user_metadata_roles : Option (List String)
  deriving DecidableEq, Repr

/-- Function public.jwt_roles: the roles array under app_metadata
(defaulting to the empty array) concatenated with the roles array under
user_metadata (defaulting to the empty array). -/
def jwt_roles (j : Jwt) : List String :=
  j.app_metadata_roles.getD [] ++ j.user_metadata_roles.getD []

/-- Function public.is_admin: the string administrator occurs among the
JWT roles. -/
def is_admin (j : Jwt) : Prop :=
  "administrator" ∈ jwt_roles j

instance (j : Jwt) : Decidable (is_admin j) := by
  unfold is_admin; infer_instance

/-- Function public.is_committee: the string electoral_committee occurs
among the JWT roles. -/
def is_committee (j : Jwt) : Prop :=
  "electoral_committee" ∈ jwt_roles j

instance (j : Jwt) : Decidable (is_committee j) := by
  unfold is_committee; infer_instance

/-- Function public.make_receipt: a fresh uuid rendered as text with the
dashes removed (replacing the one-character dash pattern by the empty string
is exactly dropping every dash character).  The uuid argument is the
randomness drawn by gen_random_uuid; the token depends on nothing else. -/
def make_receipt (uuid : String) : String :=
  String.mk (uuid.data.filter fun c => ¬ c = '-')

/-- Decidable equality of results, used to evaluate the operations on
concrete states. -/
instance exceptDecEq {e a : Type} [DecidableEq e] [DecidableEq a] :
    DecidableEq (Except e a)
  | .error x, .error y =>
    if h : x = y then isTrue (by rw [h]) else isFalse fun hh => h (Except.error.inj hh)
  | .error _, .ok _ => isFalse fun hh => Except.noConfusion hh
  | .ok _, .error _ => isFalse fun hh => Except.noConfusion hh
  | .ok x, .ok y =>
    if h : x = y then isTrue (by rw [h]) else isFalse fun hh => h (Except.ok.inj hh)

/-- There is an election row with the given id whose status is voting_open
(the election clause of the votes_insert row-level policy, and the condition
tested by checkEligibility in useVoting.ts). -/
def votes_open (db : DB) (e : String) : Prop :=
  ∃ el ∈ db.elections, el.id = e ∧ el.status = ElectionStatus.voting_open

instance (db : DB) (e : String) : Decidable (votes_open db e) := by
  unfold votes_open; infer_instance

/-- There is a candidate list with the given id belonging to the given
election (the pairing clause of the votes_insert policy, which is also the
predicate enforced by the composite constraint
votes_candidate_list_matches_election). -/
def list_in (L : List CandidateList) (l e : String) : Prop :=
  ∃ cl ∈ L, cl.id = l ∧ cl.election_id = e

instance (L : List CandidateList) (l e : String) : Decidable (list_in L l e) := by
  unfold list_in; infer_instance

def list_in_election (db : DB) (l e : String) : Prop :=
  list_in db.candidate_lists l e

instance (db : DB) (l e : String) : Decidable (list_in_election db l e) := by
  unfold list_in_election; infer_instance

/-- A vote row for the given user and election already exists (the
one_vote_per_user_per_election unique constraint tests exactly this pair,
and hasAlreadyVoted in useVoting.ts queries it). -/
def already_voted (db : DB) (u e : String) : Prop :=
  ∃ v ∈ db.votes, v.user_id = u ∧ v.election_id = e

instance (db : DB) (u e : String) : Decidable (already_voted db u e) := by
  unfold already_voted; infer_instance

/-- Trigger function public.votes_after_insert, fired after each insert on
votes: adds one to the total_votes of the election referenced by the new row
and one to the votes_count of the candidate list referenced by the new row.
Its receipt-defaulting branch (regenerate when receipt_hash is null or empty)
is not taken on the cast_vote path, which always supplies make_receipt. -/
def votes_after_insert (db : DB) (new : Vote) : DB :=
  { db with
    elections := db.elections.map fun el =>
      if el.id = new.election_id then
        { el with total_votes := el.total_votes + 1 }
      else el
    candidate_lists := db.candidate_lists.map fun cl =>
      if cl.id = new.candidate_list_id then
        { cl with votes_count := cl.votes_count + 1 }
      else cl }

/-- The typed errors of the casting path.  AlreadyVoted is the
unique_violation (23505) that cast_vote catches and the client maps to its
user-facing message; ElectionNotOpen is surfaced for real by the client
eligibility check that runs before the RPC.  At the storage layer itself a
failing row-level WITH CHECK policy raises one undifferentiated policy
violation (42501) whichever clause failed, so NotAuthenticated,
ElectionNotOpen and InvalidList are the model naming the first failed
policy clause, in the order the policy writes them: they record which
precondition was violated, refining the single policy error of the source
rather than reproducing distinct storage error codes. -/
inductive CastError where
  | notAuthenticated
  | electionNotOpen
  | invalidList
  | alreadyVoted
  deriving DecidableEq, Repr

/-- RPC public.cast_vote together with the storage-level checks its insert is
subject to: the votes_insert row-level policy (caller authenticated, row cast
as the caller, election voting_open, list belongs to the election), then the
unique constraints checked at index insertion (one_vote_per_user_per_election,
votes_receipt_hash_idx, the primary key), any of whose violations cast_vote
surfaces as the already-voted unique_violation error.  A failing policy
clause aborts the insert; the source raises that abort as one policy
violation and the model labels it with the first failed clause (see
CastError).  On success the insert fires votes_after_insert in the same
transaction and the inserted row is returned.  The vid and uuid arguments
are the randomness drawn for the row id and for the receipt. -/
def cast_vote (db : DB) (uid : Option String) (p_election p_list : String)
    (vid uuid : String) : Except CastError (DB × Vote) :=
  match uid with
  | none => .error .notAuthenticated
  | some u =>
    if votes_open db p_election then
      if list_in_election db p_list p_election then
        if already_voted db u p_election then .error .alreadyVoted
        else
          let v : Vote :=
            { id := vid
              election_id := p_election
              candidate_list_id := p_list
              user_id := u
              receipt_hash := make_receipt uuid }
          if (∃ w ∈ db.votes, w.receipt_hash = v.receipt_hash) ∨
             (∃ w ∈ db.votes, w.id = vid) then .error .alreadyVoted
          else .ok (votes_after_insert { db with votes := v :: db.votes } v, v)
      else .error .invalidList
    else .error .electionNotOpen

/-- The castVote function of useVoting.ts: it first runs checkEligibility
(the election must exist with status voting_open), then hasAlreadyVoted (a
vote row for this election and user), and only then calls the cast_vote RPC
as the authenticated user. -/
def client_cast_vote (db : DB) (u : String) (electionId listId : String)
    (vid uuid : String) : Except CastError (DB × Vote) :=
  if votes_open db electionId then
    if already_voted db u electionId then .error .alreadyVoted
    else cast_vote db (some u) electionId listId vid uuid
  else .error .electionNotOpen

/-- The typed errors of the administrative RPCs. -/
inductive AdminError where
  | unauthorized
  | electionNotFound
  | invalidList
  deriving DecidableEq, Repr

/-- The integer read for a key of the jsonb distribution: the stored value
when the key is present with a non-null value, and zero when the key is
absent or its value is null (coalesce over the ->> extraction). -/
def dist_value (d : List (String × Option Int)) (k : String) : Int :=
  ((d.lookup k).getD none).getD 0

/-- RPC public.admin_apply_simulation: checks is_admin inside the procedure,
checks the election exists, validates that every key of the distribution is a
candidate list of that election (any mismatch aborts the whole call), then
adds the coalesced count of each key to the votes_count of the matching list
and the sum of the coalesced counts to the total_votes of the election.  No
vote row is inserted. -/
def admin_apply_simulation (db : DB) (jwt : Jwt) (p_election_id : String)
    (p_distribution : List (String × Option Int)) : Except AdminError DB :=
  if is_admin jwt then
    if ∃ el ∈ db.elections, el.id = p_election_id then
      if ∀ kv ∈ p_distribution, list_in db.candidate_lists kv.1 p_election_id then
        let v_total : Int := (p_distribution.map fun kv => kv.2.getD 0).sum
        .ok { db with
          candidate_lists := db.candidate_lists.map fun cl =>
            if cl.election_id = p_election_id then
              { cl with votes_count := cl.votes_count + dist_value p_distribution cl.id }
            else cl
          elections := db.elections.map fun el =>
            if el.id = p_election_id then
              { el with total_votes := el.total_votes + v_total }
            else el }
      else .error .invalidList
    else .error .electionNotFound
  else .error .unauthorized

/-- RPC public.admin_reset_election_votes: checks is_admin inside the
procedure, deletes every vote row of the election, zeroes the votes_count of
every candidate list of the election and zeroes the total_votes of the
election, all in one transaction. -/
def admin_reset_election_votes (db : DB) (jwt : Jwt) (p_election_id : String) :
    Except AdminError DB :=
  if is_admin jwt then
    .ok { db with
      votes := db.votes.filter fun v => ¬ v.election_id = p_election_id
      candidate_lists := db.candidate_lists.map fun cl =>
        if cl.election_id = p_election_id then { cl with votes_count := 0 } else cl
      elections := db.elections.map fun el =>
        if el.id = p_election_id then { el with total_votes := 0 } else el }
  else .error .unauthorized

/-- An administrator updating an election row (the elections_write policy:
writes on elections require is_admin), as the EditElection admin screen does
when it changes an election status. -/
def admin_update_election (db : DB) (jwt : Jwt) (p_election_id : String)
    (s : ElectionStatus) : Except AdminError DB :=
  if is_admin jwt then
    .ok { db with
      elections := db.elections.map fun el =>
        if el.id = p_election_id then { el with status := s } else el }
  else .error .unauthorized

/-- The operations reachable through the authenticated interface: a client
vote cast, the two administrative bulk-tally RPCs and an administrative
election update. -/
inductive Op where
  | cast (u electionId listId vid uuid : String)
  | sim (jwt : Jwt) (electionId : String) (dist : List (String × Option Int))
  | reset (jwt : Jwt) (electionId : String)
  | setStatus (jwt : Jwt) (electionId : String) (s : ElectionStatus)

/-- One completed call: on success the transaction commits to the successor
state, on any error it rolls back and the state is unchanged. -/
def applyOp (db : DB) : Op → DB
  | .cast u e l vid uuid =>
    match client_cast_vote db u e l vid uuid with
    | .ok (db', _) => db'
    | .error _ => db
  | .sim jwt e d =>
    match admin_apply_simulation db jwt e d with
    | .ok db' => db'
    | .error _ => db
  | .reset jwt e =>
    match admin_reset_election_votes db jwt e with
    | .ok db' => db'
    | .error _ => db
  | .setStatus jwt e s =>
    match admin_update_election db jwt e s with
    | .ok db' => db'
    | .error _ => db

/-- A sequence of completed calls. -/
def runOps (db : DB) (ops : List Op) : DB :=
  ops.foldl applyOp db

/-- A jsonb object has pairwise distinct keys, so a distribution taken from
one has nodup keys; the other operations carry no such obligation. -/
def Op.wfOp : Op → Prop
  | .sim _ _ d => (d.map Prod.fst).Nodup
  | _ => True

/-- An operation that is not a simulated distribution. -/
def Op.noSim : Op → Prop
  | .sim _ _ _ => False
  | _ => True

/-- The (user_id, election_id) pair of a vote row, the column pair covered by
the one_vote_per_user_per_election unique constraint. -/
def pairKey (v : Vote) : String × String :=
  (v.user_id, v.election_id)

/-- The state invariants the schema enforces: unique primary keys on the
three tables, the one_vote_per_user_per_election unique constraint, the
unique index votes_receipt_hash_idx, and the composite constraint
votes_candidate_list_matches_election on every vote row. -/
def DB.WF (db : DB) : Prop :=
  (db.elections.map Election.id).Nodup ∧
  (db.candidate_lists.map CandidateList.id).Nodup ∧
  (db.votes.map pairKey).Nodup ∧
  (db.votes.map Vote.receipt_hash).Nodup ∧
  (db.votes.map Vote.id).Nodup ∧
  ∀ v ∈ db.votes, list_in db.candidate_lists v.candidate_list_id v.election_id

instance (db : DB) : Decidable (DB.WF db) := by
  unfold DB.WF; infer_instance

/-- The sum of votes_count over the candidate lists of one election. -/
def sumOver (L : List CandidateList) (e : String) : Int :=
  ((L.filter fun cl => cl.election_id = e).map CandidateList.votes_count).sum

def sumListVotes (db : DB) (e : String) : Int :=
  sumOver db.candidate_lists e

/-- The number of vote rows referencing one election. -/
def countBallots (db : DB) (e : String) : Nat :=
  (db.votes.filter fun v => v.election_id = e).length

/-- Every election total matches the sum of the vote counters of its lists. -/
def tallyInv (db : DB) : Prop :=
  ∀ el ∈ db.elections, el.total_votes = sumListVotes db el.id

instance (db : DB) : Decidable (tallyInv db) := by
  unfold tallyInv; infer_instance

/-- Every election total matches the sum of the vote counters of its lists
and also the number of vote rows referencing it. -/
def fullTallyInv (db : DB) : Prop :=
  ∀ el ∈ db.elections,
    el.total_votes = sumListVotes db el.id ∧
    el.total_votes = (countBallots db el.id : Int)

instance (db : DB) : Decidable (fullTallyInv db) := by
  unfold fullTallyInv; infer_instance

/-! Generic list lemmas used by the tally arithmetic. -/

lemma sum_map_add {α : Type} (l : List α) (f g : α → Int) :
    (l.map fun x => f x + g x).sum = (l.map f).sum + (l.map g).sum := by
  induction l with
  | nil => simp
  | cons a t ih => simp only [List.map_cons, List.sum_cons, ih]; ring

lemma sum_map_zero {α : Type} (l : List α) :
    (l.map fun _ => (0 : Int)).sum = 0 := by
  induction l with
  | nil => simp
  | cons a t ih => simp [ih]

lemma lookup_cons {β : Type} (a k : String) (v : β) (D : List (String × β)) :
    List.lookup a ((k, v) :: D) = if a = k then some v else List.lookup a D := by
  by_cases h : a = k
  · simp [List.lookup, h]
  · have hb : (a == k) = false := beq_eq_false_iff_ne.mpr h
    simp [List.lookup, hb, h]

lemma lookup_eq_none_of_not_mem {β : Type} (D : List (String × β)) (k : String)
    (h : k ∉ D.map Prod.fst) : D.lookup k = none := by
  induction D with
  | nil => rfl
  | cons p t ih =>
    obtain ⟨x, v⟩ := p
    have h' : ¬(k = x ∨ k ∈ t.map Prod.fst) := by simpa using h
    rw [lookup_cons]
    simp only [if_neg (fun hh => h' (Or.inl hh))]
    exact ih fun hm => h' (Or.inr hm)

lemma dist_value_nil (k : String) : dist_value [] k = 0 := rfl

lemma dist_value_cons (k x : String) (v : Option Int) (D : List (String × Option Int)) :
    dist_value ((x, v) :: D) k = if k = x then v.getD 0 else dist_value D k := by
  unfold dist_value
  rw [lookup_cons]
  by_cases h : k = x <;> simp [h]

lemma dist_value_not_mem (D : List (String × Option Int)) (k : String)
    (h : k ∉ D.map Prod.fst) : dist_value D k = 0 := by
  unfold dist_value
  rw [lookup_eq_none_of_not_mem D k h]
  rfl

lemma sum_map_ite_not_mem {α : Type} (l : List α) (key : α → String) (k : String) (c : Int)
    (hmem : k ∉ l.map key) :
    (l.map fun x => if key x = k then c else 0).sum = 0 := by
  induction l with
  | nil => simp
  | cons a t ih =>
    have h' : ¬(k = key a ∨ k ∈ t.map key) := by simpa using hmem
    simp only [List.map_cons, List.sum_cons,
      if_neg (fun hh : key a = k => h' (Or.inl hh.symm))]
    rw [ih fun hm => h' (Or.inr hm)]
    ring

lemma sum_map_ite_mem {α : Type} (l : List α) (key : α → String) (k : String) (c : Int)
    (hnd : (l.map key).Nodup) (hmem : k ∈ l.map key) :
    (l.map fun x => if key x = k then c else 0).sum = c := by
  induction l with
  | nil => simp at hmem
  | cons a t ih =>
    have hnd' : key a ∉ t.map key ∧ (t.map key).Nodup := by simpa using hnd
    by_cases h : key a = k
    · have hnm : k ∉ t.map key := h ▸ hnd'.1
      simp only [List.map_cons, List.sum_cons, if_pos h]
      rw [sum_map_ite_not_mem t key k c hnm]
      ring
    · have hm : k ∈ t.map key := by
        rcases (by simpa using hmem : k = key a ∨ k ∈ t.map key) with h1 | h1
        · exact absurd h1.symm h
        · exact h1
      simp only [List.map_cons, List.sum_cons, if_neg h]
      rw [ih hnd'.2 hm]
      ring

lemma sum_map_ite_self (l : List String) (k : String) (c : Int)
    (hnd : l.Nodup) (hmem : k ∈ l) :
    (l.map fun a => if a = k then c else 0).sum = c := by
  have h1 : (l.map id).Nodup := by simpa using hnd
  have h2 : k ∈ l.map id := by simpa using hmem
  simpa using sum_map_ite_mem l id k c h1 h2

/-- The sum of the distribution values read back over a duplicate-free list of
keys covering the distribution equals the sum of the distribution counts. -/
lemma sum_dist_value (ids : List String) (D : List (String × Option Int))
    (hids : ids.Nodup) (hD : (D.map Prod.fst).Nodup)
    (hsub : ∀ kv ∈ D, kv.1 ∈ ids) :
    (ids.map fun k => dist_value D k).sum = (D.map fun kv => kv.2.getD 0).sum := by
  induction D with
  | nil => simp [dist_value_nil, sum_map_zero]
  | cons p t ih =>
    obtain ⟨x, v⟩ := p
    have hx : x ∈ ids := hsub (x, v) (List.mem_cons_self _ _)
    have hD' : x ∉ t.map Prod.fst ∧ (t.map Prod.fst).Nodup := by simpa using hD
    have hrw : ∀ k ∈ ids, dist_value ((x, v) :: t) k
        = (if k = x then v.getD 0 else 0) + dist_value t k := by
      intro k _
      rw [dist_value_cons]
      by_cases h : k = x
      · rw [if_pos h, if_pos h, dist_value_not_mem t k (h ▸ hD'.1)]
        ring
      · rw [if_neg h, if_neg h]
        ring
    rw [List.map_congr_left hrw, sum_map_add,
        sum_map_ite_self ids x (v.getD 0) hids hx,
        ih hD'.2 fun kv hkv => hsub kv (List.mem_cons_of_mem _ hkv)]
    simp

/-! Lemmas about the per-election sum of list counters. -/

lemma filter_map_comm (L : List CandidateList) (f : CandidateList → CandidateList)
    (e : String) (heid : ∀ cl, (f cl).election_id = cl.election_id) :
    (L.map f).filter (fun cl => cl.election_id = e)
      = (L.filter fun cl => cl.election_id = e).map f := by
  induction L with
  | nil => rfl
  | cons a t ih =>
    by_cases h : a.election_id = e
    · simp only [List.map_cons, List.filter_cons]
      rw [if_pos (by simpa using (heid a).trans h), if_pos (by simpa using h), List.map_cons, ih]
    · simp only [List.map_cons, List.filter_cons]
      rw [if_neg (by simpa using fun hh => h ((heid a).symm.trans hh)),
          if_neg (by simpa using h), ih]

lemma sumOver_map (L : List CandidateList) (f : CandidateList → CandidateList)
    (e : String) (heid : ∀ cl, (f cl).election_id = cl.election_id) :
    sumOver (L.map f) e
      = ((L.filter fun cl => cl.election_id = e).map fun cl => (f cl).votes_count).sum := by
  unfold sumOver
  rw [filter_map_comm L f e heid, List.map_map]
  rfl

/-- Ids of the lists of one election stay duplicate-free. -/
lemma nodup_filter_map_id (L : List CandidateList)
    (hnd : (L.map CandidateList.id).Nodup) (e : String) :
    ((L.filter fun cl => cl.election_id = e).map CandidateList.id).Nodup :=
  List.Nodup.sublist ((List.filter_sublist L).map CandidateList.id) hnd

lemma mem_filter_map_id (L : List CandidateList) (e : String) (cl : CandidateList)
    (h : cl ∈ L) (he : cl.election_id = e) :
    cl.id ∈ (L.filter fun x => x.election_id = e).map CandidateList.id :=
  List.mem_map.mpr ⟨cl, List.mem_filter.mpr ⟨h, by simpa using he⟩, rfl⟩

lemma not_mem_filter_map_id (L : List CandidateList)
    (hnd : (L.map CandidateList.id).Nodup) (cl : CandidateList) (hmem : cl ∈ L)
    (e' : String) (hne : cl.election_id ≠ e') :
    cl.id ∉ (L.filter fun x => x.election_id = e').map CandidateList.id := by
  intro hc
  obtain ⟨cl', hcl', hid⟩ := List.mem_map.mp hc
  obtain ⟨hclL, he'⟩ := List.mem_filter.mp hcl'
  have heq : cl' = cl := List.inj_on_of_nodup_map hnd hclL hmem hid
  exact hne (heq ▸ (by simpa using he'))

/-- Effect of the simulated-distribution counter update on the per-election
sums: the sum of the target election grows by the sum of the read-back
values, the others are unchanged. -/
lemma sumOver_sim (L : List CandidateList) (Eid : String)
    (D : List (String × Option Int)) (e' : String) :
    sumOver (L.map fun cl =>
        if cl.election_id = Eid then
          { cl with votes_count := cl.votes_count + dist_value D cl.id }
        else cl) e'
      = sumOver L e' +
        (if e' = Eid then
          ((L.filter fun cl => cl.election_id = Eid).map fun cl => dist_value D cl.id).sum
         else 0) := by
  have heid : ∀ cl : CandidateList,
      ((if cl.election_id = Eid then
          { cl with votes_count := cl.votes_count + dist_value D cl.id }
        else cl) : CandidateList).election_id = cl.election_id := by
    intro cl; by_cases h : cl.election_id = Eid <;> simp [h]
  rw [sumOver_map _ _ _ heid]
  by_cases he : e' = Eid
  · subst he
    have hrw : ∀ cl ∈ L.filter fun cl => cl.election_id = e',
        ((if cl.election_id = e' then
            { cl with votes_count := cl.votes_count + dist_value D cl.id }
          else cl) : CandidateList).votes_count
          = cl.votes_count + dist_value D cl.id := by
      intro cl hcl
      have h := (List.mem_filter.mp hcl).2
      simp only [decide_eq_true_eq] at h
      simp [h]
    rw [List.map_congr_left hrw, sum_map_add, if_pos rfl]
    rfl
  · have hrw : ∀ cl ∈ L.filter fun cl => cl.election_id = e',
        ((if cl.election_id = Eid then
            { cl with votes_count := cl.votes_count + dist_value D cl.id }
          else cl) : CandidateList).votes_count
          = cl.votes_count := by
      intro cl hcl
      have h := (List.mem_filter.mp hcl).2
      simp only [decide_eq_true_eq] at h
      rw [if_neg (fun hh => he (h.symm.trans hh))]
    rw [List.map_congr_left hrw, if_neg he]
    simp [sumOver]

/-- Effect of the tally trigger on the per-election sums: the sum of the
election owning the incremented list grows by one, the others are
unchanged. -/
lemma sumOver_cast (L : List CandidateList) (lid : String) (e' : String) :
    sumOver (L.map fun cl =>
        if cl.id = lid then { cl with votes_count := cl.votes_count + 1 } else cl) e'
      = sumOver L e' +
        ((L.filter fun cl => cl.election_id = e').map fun cl =>
          if cl.id = lid then (1 : Int) else 0).sum := by
  have heid : ∀ cl : CandidateList,
      ((if cl.id = lid then { cl with votes_count := cl.votes_count + 1 } else cl) :
        CandidateList).election_id = cl.election_id := by
    intro cl; by_cases h : cl.id = lid <;> simp [h]
  rw [sumOver_map _ _ _ heid]
  have hrw : ∀ cl ∈ L.filter fun cl => cl.election_id = e',
      ((if cl.id = lid then { cl with votes_count := cl.votes_count + 1 } else cl) :
        CandidateList).votes_count
        = cl.votes_count + (if cl.id = lid then (1 : Int) else 0) := by
    intro cl _
    by_cases h : cl.id = lid <;> simp [h]
  rw [List.map_congr_left hrw, sum_map_add]
  rfl

/-- Effect of the reset on the per-election sums: the target election drops
to zero, the others are unchanged. -/
lemma sumOver_reset (L : List CandidateList) (Eid : String) (e' : String) :
    sumOver (L.map fun cl =>
        if cl.election_id = Eid then { cl with votes_count := 0 } else cl) e'
      = if e' = Eid then 0 else sumOver L e' := by
  have heid : ∀ cl : CandidateList,
      ((if cl.election_id = Eid then { cl with votes_count := 0 } else cl) :
        CandidateList).election_id = cl.election_id := by
    intro cl; by_cases h : cl.election_id = Eid <;> simp [h]
  rw [sumOver_map _ _ _ heid]
  by_cases he : e' = Eid
  · subst he
    have hrw : ∀ cl ∈ L.filter fun cl => cl.election_id = e',
        ((if cl.election_id = e' then { cl with votes_count := 0 } else cl) :
          CandidateList).votes_count = (0 : Int) := by
      intro cl hcl
      have h := (List.mem_filter.mp hcl).2
      simp only [decide_eq_true_eq] at h
      simp [h]
    rw [List.map_congr_left hrw, if_pos rfl, sum_map_zero]
  · have hrw : ∀ cl ∈ L.filter fun cl => cl.election_id = e',
        ((if cl.election_id = Eid then { cl with votes_count := 0 } else cl) :
          CandidateList).votes_count = cl.votes_count := by
      intro cl hcl
      have h := (List.mem_filter.mp hcl).2
      simp only [decide_eq_true_eq] at h
      rw [if_neg (fun hh => he (h.symm.trans hh))]
    rw [List.map_congr_left hrw, if_neg he]
    simp [sumOver]

/-! Characterizations of the successful runs of each operation. -/

/-- The row inserted by a successful cast. -/
def castRow (u p_election p_list vid uuid : String) : Vote :=
  { id := vid
    election_id := p_election
    candidate_list_id := p_list
    user_id := u
    receipt_hash := make_receipt uuid }

lemma cast_vote_ok {db : DB} {uid : Option String} {p_election p_list vid uuid : String}
    {db' : DB} {v : Vote}
    (h : cast_vote db uid p_election p_list vid uuid = .ok (db', v)) :
    ∃ u, uid = some u ∧
      votes_open db p_election ∧
      list_in_election db p_list p_election ∧
      ¬ already_voted db u p_election ∧
      ¬ ((∃ w ∈ db.votes, w.receipt_hash = make_receipt uuid) ∨
         (∃ w ∈ db.votes, w.id = vid)) ∧
      v = castRow u p_election p_list vid uuid ∧
      db' = votes_after_insert { db with votes := v :: db.votes } v := by
  match uid with
  | none => simp [cast_vote] at h
  | some u =>
    refine ⟨u, rfl, ?_⟩
    simp only [cast_vote] at h
    split_ifs at h with h1 h2 h3 h4
    have hp := Except.ok.inj h
    have hdb : votes_after_insert
        { db with votes := castRow u p_election p_list vid uuid :: db.votes }
        (castRow u p_election p_list vid uuid) = db' := congrArg Prod.fst hp
    have hv : castRow u p_election p_list vid uuid = v := congrArg Prod.snd hp
    exact ⟨h1, h2, h3, h4, hv.symm, by rw [← hv, ← hdb]⟩

lemma cast_vote_ok_of {db : DB} {u p_election p_list vid uuid : String}
    (h1 : votes_open db p_election)
    (h2 : list_in_election db p_list p_election)
    (h3 : ¬ already_voted db u p_election)
    (h4 : ¬ ((∃ w ∈ db.votes, w.receipt_hash = make_receipt uuid) ∨
             (∃ w ∈ db.votes, w.id = vid))) :
    cast_vote db (some u) p_election p_list vid uuid
      = .ok (votes_after_insert
              { db with votes := castRow u p_election p_list vid uuid :: db.votes }
              (castRow u p_election p_list vid uuid),
             castRow u p_election p_list vid uuid) := by
  simp only [cast_vote]
  rw [if_pos h1, if_pos h2, if_neg h3, if_neg h4]
  rfl

lemma client_cast_vote_ok {db : DB} {u e l vid uuid : String} {db' : DB} {v : Vote}
    (h : client_cast_vote db u e l vid uuid = .ok (db', v)) :
    cast_vote db (some u) e l vid uuid = .ok (db', v) := by
  simp only [client_cast_vote] at h
  split_ifs at h with h1 h2
  exact h

lemma admin_apply_simulation_ok {db : DB} {jwt : Jwt} {e : String}
    {D : List (String × Option Int)} {db' : DB}
    (h : admin_apply_simulation db jwt e D = .ok db') :
    is_admin jwt ∧ (∃ el ∈ db.elections, el.id = e) ∧
    (∀ kv ∈ D, list_in db.candidate_lists kv.1 e) ∧
    db' = { db with
      candidate_lists := db.candidate_lists.map fun cl =>
        if cl.election_id = e then
          { cl with votes_count := cl.votes_count + dist_value D cl.id }
        else cl
      elections := db.elections.map fun el =>
        if el.id = e then
          { el with total_votes := el.total_votes + (D.map fun kv => kv.2.getD 0).sum }
        else el } := by
  simp only [admin_apply_simulation] at h
  split_ifs at h with h1 h2 h3
  exact ⟨h1, h2, h3, (Except.ok.inj h).symm⟩

lemma admin_reset_election_votes_ok {db : DB} {jwt : Jwt} {e : String} {db' : DB}
    (h : admin_reset_election_votes db jwt e = .ok db') :
    is_admin jwt ∧
    db' = { db with
      votes := db.votes.filter fun v => ¬ v.election_id = e
      candidate_lists := db.candidate_lists.map fun cl =>
        if cl.election_id = e then { cl with votes_count := 0 } else cl
      elections := db.elections.map fun el =>
        if el.id = e then { el with total_votes := 0 } else el } := by
  simp only [admin_reset_election_votes] at h
  split_ifs at h with h1
  exact ⟨h1, (Except.ok.inj h).symm⟩

lemma admin_update_election_ok {db : DB} {jwt : Jwt} {e : String} {s : ElectionStatus}
    {db' : DB} (h : admin_update_election db jwt e s = .ok db') :
    is_admin jwt ∧
    db' = { db with
      elections := db.elections.map fun el =>
        if el.id = e then { el with status := s } else el } := by
  simp only [admin_update_election] at h
  split_ifs at h with h1
  exact ⟨h1, (Except.ok.inj h).symm⟩

/-! Preservation of the schema invariants by every operation. -/

lemma map_election_id (L : List Election) (f : Election → Election)
    (h : ∀ el, (f el).id = el.id) :
    (L.map f).map Election.id = L.map Election.id := by
  rw [List.map_map]
  exact List.map_congr_left fun el _ => h el

lemma map_cl_id (L : List CandidateList) (f : CandidateList → CandidateList)
    (h : ∀ cl, (f cl).id = cl.id) :
    (L.map f).map CandidateList.id = L.map CandidateList.id := by
  rw [List.map_map]
  exact List.map_congr_left fun cl _ => h cl

lemma list_in_map (L : List CandidateList) (f : CandidateList → CandidateList)
    (hid : ∀ cl, (f cl).id = cl.id) (heid : ∀ cl, (f cl).election_id = cl.election_id)
    (l e : String) (h : list_in L l e) : list_in (L.map f) l e := by
  obtain ⟨cl, hcl, h1, h2⟩ := h
  exact ⟨f cl, List.mem_map_of_mem f hcl, (hid cl).trans h1, (heid cl).trans h2⟩

lemma wf_cast_vote {db : DB} {uid : Option String} {e l vid uuid : String}
    {db' : DB} {v : Vote} (hwf : DB.WF db)
    (h : cast_vote db uid e l vid uuid = .ok (db', v)) : DB.WF db' := by
  obtain ⟨u, -, h1, h2, h3, h4, hv, hdb⟩ := cast_vote_ok h
  obtain ⟨wfe, wfl, wfp, wfr, wfi, wfpair⟩ := hwf
  subst hv hdb
  simp only [votes_after_insert]
  refine ⟨?_, ?_, ?_, ?_, ?_, ?_⟩
  · rw [map_election_id _ _ fun el => by
      by_cases hh : el.id = (castRow u e l vid uuid).election_id <;> simp [hh]]
    exact wfe
  · rw [map_cl_id _ _ fun cl => by
      by_cases hh : cl.id = (castRow u e l vid uuid).candidate_list_id <;> simp [hh]]
    exact wfl
  · rw [List.map_cons]
    refine List.nodup_cons.mpr ⟨?_, wfp⟩
    intro hm
    obtain ⟨w, hw, hwp⟩ := List.mem_map.mp hm
    have hu : w.user_id = u := congrArg Prod.fst hwp
    have he : w.election_id = e := congrArg Prod.snd hwp
    exact h3 ⟨w, hw, hu, he⟩
  · rw [List.map_cons]
    refine List.nodup_cons.mpr ⟨?_, wfr⟩
    intro hm
    obtain ⟨w, hw, hwr⟩ := List.mem_map.mp hm
    exact h4 (Or.inl ⟨w, hw, hwr⟩)
  · rw [List.map_cons]
    refine List.nodup_cons.mpr ⟨?_, wfi⟩
    intro hm
    obtain ⟨w, hw, hwi⟩ := List.mem_map.mp hm
    exact h4 (Or.inr ⟨w, hw, hwi⟩)
  · intro w hw
    have hpres : ∀ hlist : list_in db.candidate_lists w.candidate_list_id w.election_id,
        list_in (db.candidate_lists.map fun cl =>
          if cl.id = (castRow u e l vid uuid).candidate_list_id then
            { cl with votes_count := cl.votes_count + 1 }
          else cl) w.candidate_list_id w.election_id := by
      intro hlist
      refine list_in_map _ _ ?_ ?_ _ _ hlist
      · intro cl; by_cases hh : cl.id = (castRow u e l vid uuid).candidate_list_id <;> simp [hh]
      · intro cl; by_cases hh : cl.id = (castRow u e l vid uuid).candidate_list_id <;> simp [hh]
    rcases List.mem_cons.mp hw with hweq | hwmem
    · subst hweq
      exact hpres h2
    · exact hpres (wfpair w hwmem)

lemma wf_sim {db : DB} {jwt : Jwt} {e : String} {D : List (String × Option Int)}
    {db' : DB} (hwf : DB.WF db)
    (h : admin_apply_simulation db jwt e D = .ok db') : DB.WF db' := by
  obtain ⟨-, -, -, hdb⟩ := admin_apply_simulation_ok h
  obtain ⟨wfe, wfl, wfp, wfr, wfi, wfpair⟩ := hwf
  subst hdb
  refine ⟨?_, ?_, wfp, wfr, wfi, ?_⟩
  · rw [map_election_id _ _ fun el => by by_cases hh : el.id = e <;> simp [hh]]
    exact wfe
  · rw [map_cl_id _ _ fun cl => by by_cases hh : cl.election_id = e <;> simp [hh]]
    exact wfl
  · intro w hw
    refine list_in_map _ _ ?_ ?_ _ _ (wfpair w hw)
    · intro cl; by_cases hh : cl.election_id = e <;> simp [hh]
    · intro cl; by_cases hh : cl.election_id = e <;> simp [hh]

lemma wf_reset {db : DB} {jwt : Jwt} {e : String} {db' : DB} (hwf : DB.WF db)
    (h : admin_reset_election_votes db jwt e = .ok db') : DB.WF db' := by
  obtain ⟨-, hdb⟩ := admin_reset_election_votes_ok h
  obtain ⟨wfe, wfl, wfp, wfr, wfi, wfpair⟩ := hwf
  subst hdb
  have hsub := (List.filter_sublist (l := db.votes)
    (p := fun v => ¬ v.election_id = e))
  refine ⟨?_, ?_, ?_, ?_, ?_, ?_⟩
  · rw [map_election_id _ _ fun el => by by_cases hh : el.id = e <;> simp [hh]]
    exact wfe
  · rw [map_cl_id _ _ fun cl => by by_cases hh : cl.election_id = e <;> simp [hh]]
    exact wfl
  · exact List.Nodup.sublist (hsub.map pairKey) wfp
  · exact List.Nodup.sublist (hsub.map Vote.receipt_hash) wfr
  · exact List.Nodup.sublist (hsub.map Vote.id) wfi
  · intro w hw
    refine list_in_map _ _ ?_ ?_ _ _ (wfpair w (List.mem_of_mem_filter hw))
    · intro cl; by_cases hh : cl.election_id = e <;> simp [hh]
    · intro cl; by_cases hh : cl.election_id = e <;> simp [hh]

lemma wf_update {db : DB} {jwt : Jwt} {e : String} {s : ElectionStatus} {db' : DB}
    (hwf : DB.WF db) (h : admin_update_election db jwt e s = .ok db') : DB.WF db' := by
  obtain ⟨-, hdb⟩ := admin_update_election_ok h
  obtain ⟨wfe, wfl, wfp, wfr, wfi, wfpair⟩ := hwf
  subst hdb
  refine ⟨?_, wfl, wfp, wfr, wfi, wfpair⟩
  rw [map_election_id _ _ fun el => by by_cases hh : el.id = e <;> simp [hh]]
  exact wfe

lemma wf_applyOp (db : DB) (op : Op) (hwf : DB.WF db) : DB.WF (applyOp db op) := by
  cases op with
  | cast u e l vid uuid =>
    simp only [applyOp]
    cases hc : client_cast_vote db u e l vid uuid with
    | ok p =>
      obtain ⟨db', v⟩ := p
      exact wf_cast_vote hwf (client_cast_vote_ok hc)
    | error _ => exact hwf
  | sim jwt e D =>
    simp only [applyOp]
    cases hc : admin_apply_simulation db jwt e D with
    | ok db' => exact wf_sim hwf hc
    | error _ => exact hwf
  | reset jwt e =>
    simp only [applyOp]
    cases hc : admin_reset_election_votes db jwt e with
    | ok db' => exact wf_reset hwf hc
    | error _ => exact hwf
  | setStatus jwt e s =>
    simp only [applyOp]
    cases hc : admin_update_election db jwt e s with
    | ok db' => exact wf_update hwf hc
    | error _ => exact hwf

lemma wf_runOps (db : DB) (ops : List Op) (hwf : DB.WF db) : DB.WF (runOps db ops) := by
  induction ops generalizing db with
  | nil => exact hwf
  | cons op t ih =>
    simp only [runOps, List.foldl_cons]
    exact ih (applyOp db op) (wf_applyOp db op hwf)

/-! Preservation of the tally invariants. -/

lemma tallyInv_cast_vote {db : DB} {uid : Option String} {e l vid uuid : String}
    {db' : DB} {v : Vote} (hwf : DB.WF db)
    (h : cast_vote db uid e l vid uuid = .ok (db', v)) (hinv : tallyInv db) :
    tallyInv db' := by
  obtain ⟨u, -, h1, h2, h3, h4, hv, hdb⟩ := cast_vote_ok h
  have wfl := hwf.2.1
  obtain ⟨cl0, hcl0, hcl0id, hcl0eid⟩ := h2
  subst hv hdb
  intro el' hel'
  simp only [votes_after_insert, castRow, sumListVotes] at hel' ⊢
  obtain ⟨el, hel, rfl⟩ := List.mem_map.mp hel'
  have hbase := hinv el hel
  simp only [sumListVotes] at hbase
  by_cases hcase : el.id = e
  · rw [if_pos hcase]
    simp only []
    rw [sumOver_cast]
    have hone : ((db.candidate_lists.filter fun cl => cl.election_id =
        ({ el with total_votes := el.total_votes + 1 } : Election).id).map fun cl =>
          if cl.id = l then (1 : Int) else 0).sum = 1 := by
      apply sum_map_ite_mem _ CandidateList.id l 1
        (nodup_filter_map_id _ wfl _)
      exact hcl0id ▸ mem_filter_map_id _ _ cl0 hcl0 (hcl0eid.trans hcase.symm)
    rw [hone]
    show el.total_votes + 1 = sumOver db.candidate_lists el.id + 1
    rw [hbase]
  · rw [if_neg hcase]
    rw [sumOver_cast]
    have hzero : ((db.candidate_lists.filter fun cl => cl.election_id = el.id).map fun cl =>
        if cl.id = l then (1 : Int) else 0).sum = 0 := by
      apply sum_map_ite_not_mem _ CandidateList.id l 1
      have hne : cl0.election_id ≠ el.id := fun hh =>
        hcase ((hcl0eid.symm.trans hh).symm)
      exact hcl0id ▸ not_mem_filter_map_id _ wfl cl0 hcl0 el.id hne
    rw [hzero, hbase]
    ring

lemma tallyInv_sim {db : DB} {jwt : Jwt} {e : String} {D : List (String × Option Int)}
    {db' : DB} (hwf : DB.WF db) (hD : (D.map Prod.fst).Nodup)
    (h : admin_apply_simulation db jwt e D = .ok db') (hinv : tallyInv db) :
    tallyInv db' := by
  obtain ⟨-, -, hval, hdb⟩ := admin_apply_simulation_ok h
  have wfl := hwf.2.1
  subst hdb
  intro el' hel'
  simp only [sumListVotes] at hel' ⊢
  obtain ⟨el, hel, rfl⟩ := List.mem_map.mp hel'
  have hbase := hinv el hel
  simp only [sumListVotes] at hbase
  have hsum : ((db.candidate_lists.filter fun cl => cl.election_id = e).map fun cl =>
      dist_value D cl.id).sum = (D.map fun kv => kv.2.getD 0).sum := by
    have hsub : ∀ kv ∈ D, kv.1 ∈
        (db.candidate_lists.filter fun cl => cl.election_id = e).map CandidateList.id := by
      intro kv hkv
      obtain ⟨cl, hcl, hid, heid⟩ := hval kv hkv
      exact hid ▸ mem_filter_map_id _ _ cl hcl heid
    have hmain := sum_dist_value
      ((db.candidate_lists.filter fun cl => cl.election_id = e).map CandidateList.id)
      D (nodup_filter_map_id _ wfl e) hD hsub
    rw [List.map_map] at hmain
    exact hmain
  by_cases hcase : el.id = e
  · rw [if_pos hcase]
    rw [sumOver_sim]
    show el.total_votes + (D.map fun kv => kv.2.getD 0).sum
      = sumOver db.candidate_lists el.id +
        (if el.id = e then
          ((db.candidate_lists.filter fun cl => cl.election_id = e).map fun cl =>
            dist_value D cl.id).sum
         else 0)
    rw [if_pos hcase, hsum, hbase]
  · rw [if_neg hcase]
    rw [sumOver_sim]
    rw [if_neg hcase, hbase]
    ring

lemma tallyInv_reset {db : DB} {jwt : Jwt} {e : String} {db' : DB}
    (h : admin_reset_election_votes db jwt e = .ok db') (hinv : tallyInv db) :
    tallyInv db' := by
  obtain ⟨-, hdb⟩ := admin_reset_election_votes_ok h
  subst hdb
  intro el' hel'
  simp only [sumListVotes] at hel' ⊢
  obtain ⟨el, hel, rfl⟩ := List.mem_map.mp hel'
  have hbase := hinv el hel
  simp only [sumListVotes] at hbase
  by_cases hcase : el.id = e
  · rw [if_pos hcase]
    rw [sumOver_reset]
    show (0 : Int) = if el.id = e then 0 else sumOver db.candidate_lists el.id
    rw [if_pos hcase]
  · rw [if_neg hcase]
    rw [sumOver_reset]
    rw [if_neg hcase, hbase]

lemma tallyInv_update {db : DB} {jwt : Jwt} {e : String} {s : ElectionStatus} {db' : DB}
    (h : admin_update_election db jwt e s = .ok db') (hinv : tallyInv db) :
    tallyInv db' := by
  obtain ⟨-, hdb⟩ := admin_update_election_ok h
  subst hdb
  intro el' hel'
  simp only [sumListVotes] at hel' ⊢
  obtain ⟨el, hel, rfl⟩ := List.mem_map.mp hel'
  have hbase := hinv el hel
  simp only [sumListVotes] at hbase
  by_cases hcase : el.id = e
  · rw [if_pos hcase]
    show el.total_votes = sumOver db.candidate_lists el.id
    exact hbase
  · rw [if_neg hcase]
    exact hbase

lemma fullTallyInv_cast_vote {db : DB} {uid : Option String} {e l vid uuid : String}
    {db' : DB} {v : Vote} (hwf : DB.WF db)
    (h : cast_vote db uid e l vid uuid = .ok (db', v)) (hinv : fullTallyInv db) :
    fullTallyInv db' := by
  have hsum := tallyInv_cast_vote hwf h fun el hel => (hinv el hel).1
  obtain ⟨u, -, h1, h2, h3, h4, hv, hdb⟩ := cast_vote_ok h
  subst hv hdb
  intro el' hel'
  refine ⟨hsum el' hel', ?_⟩
  simp only [votes_after_insert, castRow, countBallots] at hel' ⊢
  obtain ⟨el, hel, rfl⟩ := List.mem_map.mp hel'
  have hbase := (hinv el hel).2
  simp only [countBallots] at hbase
  by_cases hcase : el.id = e
  · rw [if_pos hcase]
    show el.total_votes + 1 = _
    rw [List.filter_cons]
    rw [if_pos (by simpa using hcase.symm)]
    rw [List.length_cons]
    show el.total_votes + 1
      = ((db.votes.filter fun w => w.election_id = el.id).length + 1 : Nat)
    push_cast
    omega
  · rw [if_neg hcase]
    rw [List.filter_cons]
    rw [if_neg (by simpa using fun hh : e = el.id => hcase hh.symm)]
    exact hbase

lemma fullTallyInv_reset {db : DB} {jwt : Jwt} {e : String} {db' : DB}
    (h : admin_reset_election_votes db jwt e = .ok db') (hinv : fullTallyInv db) :
    fullTallyInv db' := by
  have hsum := tallyInv_reset h fun el hel => (hinv el hel).1
  obtain ⟨-, hdb⟩ := admin_reset_election_votes_ok h
  subst hdb
  intro el' hel'
  refine ⟨hsum el' hel', ?_⟩
  simp only [countBallots] at hel' ⊢
  obtain ⟨el, hel, rfl⟩ := List.mem_map.mp hel'
  have hbase := (hinv el hel).2
  simp only [countBallots] at hbase
  by_cases hcase : el.id = e
  · rw [if_pos hcase]
    show (0 : Int) = _
    have hnil : ((db.votes.filter fun w => ¬ w.election_id = e).filter
        fun w => w.election_id = ({ el with total_votes := 0 } : Election).id) = [] := by
      rw [List.filter_filter]
      apply List.filter_eq_nil_iff.mpr
      intro a _
      simp [hcase]
    rw [hnil]
    rfl
  · rw [if_neg hcase]
    have hsame : ((db.votes.filter fun w => ¬ w.election_id = e).filter
        fun w => w.election_id = el.id) = db.votes.filter fun w => w.election_id = el.id := by
      rw [List.filter_filter]
      apply List.filter_congr
      intro a _
      by_cases ha : a.election_id = el.id
      · have hne : ¬ a.election_id = e := fun hh => hcase (ha.symm.trans hh)
        simp [ha, hne, hcase]
      · simp [ha]
    rw [hsame]
    exact hbase

lemma fullTallyInv_update {db : DB} {jwt : Jwt} {e : String} {s : ElectionStatus}
    {db' : DB} (h : admin_update_election db jwt e s = .ok db')
    (hinv : fullTallyInv db) : fullTallyInv db' := by
  have hsum := tallyInv_update h fun el hel => (hinv el hel).1
  obtain ⟨-, hdb⟩ := admin_update_election_ok h
  subst hdb
  intro el' hel'
  refine ⟨hsum el' hel', ?_⟩
  simp only [countBallots] at hel' ⊢
  obtain ⟨el, hel, rfl⟩ := List.mem_map.mp hel'
  have hbase := (hinv el hel).2
  simp only [countBallots] at hbase
  by_cases hcase : el.id = e
  · rw [if_pos hcase]
    exact hbase
  · rw [if_neg hcase]
    exact hbase

/-! Invariant preservation lifted to completed calls and sequences. -/

lemma tallyInv_applyOp (db : DB) (op : Op) (hwf : DB.WF db) (hop : op.wfOp)
    (hinv : tallyInv db) : tallyInv (applyOp db op) := by
  cases op with
  | cast u e l vid uuid =>
    simp only [applyOp]
    cases hc : client_cast_vote db u e l vid uuid with
    | ok p =>
      obtain ⟨db', v⟩ := p
      exact tallyInv_cast_vote hwf (client_cast_vote_ok hc) hinv
    | error _ => exact hinv
  | sim jwt e D =>
    simp only [applyOp]
    cases hc : admin_apply_simulation db jwt e D with
    | ok db' => exact tallyInv_sim hwf hop hc hinv
    | error _ => exact hinv
  | reset jwt e =>
    simp only [applyOp]
    cases hc : admin_reset_election_votes db jwt e with
    | ok db' => exact tallyInv_reset hc hinv
    | error _ => exact hinv
  | setStatus jwt e s =>
    simp only [applyOp]
    cases hc : admin_update_election db jwt e s with
    | ok db' => exact tallyInv_update hc hinv
    | error _ => exact hinv

lemma fullTallyInv_applyOp (db : DB) (op : Op) (hwf : DB.WF db) (hns : op.noSim)
    (hinv : fullTallyInv db) : fullTallyInv (applyOp db op) := by
  cases op with
  | cast u e l vid uuid =>
    simp only [applyOp]
    cases hc : client_cast_vote db u e l vid uuid with
    | ok p =>
      obtain ⟨db', v⟩ := p
      exact fullTallyInv_cast_vote hwf (client_cast_vote_ok hc) hinv
    | error _ => exact hinv
  | sim jwt e D => exact absurd hns (by simp [Op.noSim])
  | reset jwt e =>
    simp only [applyOp]
    cases hc : admin_reset_election_votes db jwt e with
    | ok db' => exact fullTallyInv_reset hc hinv
    | error _ => exact hinv
  | setStatus jwt e s =>
    simp only [applyOp]
    cases hc : admin_update_election db jwt e s with
    | ok db' => exact fullTallyInv_update hc hinv
    | error _ => exact hinv

lemma tallyInv_runOps (db : DB) (ops : List Op) (hwf : DB.WF db)
    (hops : ∀ op ∈ ops, op.wfOp) (hinv : tallyInv db) : tallyInv (runOps db ops) := by
  induction ops generalizing db with
  | nil => exact hinv
  | cons op t ih =>
    simp only [runOps, List.foldl_cons]
    exact ih (applyOp db op) (wf_applyOp db op hwf)
      (fun o ho => hops o (List.mem_cons_of_mem _ ho))
      (tallyInv_applyOp db op hwf (hops op (List.mem_cons_self _ _)) hinv)

lemma fullTallyInv_runOps (db : DB) (ops : List Op) (hwf : DB.WF db)
    (hops : ∀ op ∈ ops, op.noSim) (hinv : fullTallyInv db) :
    fullTallyInv (runOps db ops) := by
  induction ops generalizing db with
  | nil => exact hinv
  | cons op t ih =>
    simp only [runOps, List.foldl_cons]
    exact ih (applyOp db op) (wf_applyOp db op hwf)
      (fun o ho => hops o (List.mem_cons_of_mem _ ho))
      (fullTallyInv_applyOp db op hwf (hops op (List.mem_cons_self _ _)) hinv)

/-! Support lemmas for the individual claims. -/

lemma length_filter_le_one {α β : Type} [DecidableEq β] (l : List α) (f : α → β) (k : β)
    (hnd : (l.map f).Nodup) : (l.filter fun x => f x = k).length ≤ 1 := by
  induction l with
  | nil => simp
  | cons a t ih =>
    have hnd' : f a ∉ t.map f ∧ (t.map f).Nodup := by simpa using hnd
    rw [List.filter_cons]
    by_cases h : f a = k
    · rw [if_pos (by simpa using h)]
      have hz : (t.filter fun x => f x = k).length = 0 := by
        rw [List.length_eq_zero]
        apply List.filter_eq_nil_iff.mpr
        intro x hx hfx
        have hfk : f x = k := by simpa using hfx
        exact hnd'.1 (List.mem_map.mpr ⟨x, hx, hfk.trans h.symm⟩)
      rw [List.length_cons, hz]
    · rw [if_neg (by simpa using h)]
      exact ih hnd'.2

lemma filter_pair_le_one (V : List Vote) (hnd : (V.map pairKey).Nodup) (u e : String) :
    (V.filter fun v => v.user_id = u ∧ v.election_id = e).length ≤ 1 := by
  have hle := length_filter_le_one V pairKey (u, e) hnd
  have hcong : (V.filter fun v => v.user_id = u ∧ v.election_id = e)
      = V.filter fun v => pairKey v = (u, e) := by
    apply List.filter_congr
    intro v _
    simp [pairKey, Prod.ext_iff]
  rw [hcong]
  exact hle

lemma votes_open_of_map {db db' : DB} (f : Election → Election)
    (hE : db'.elections = db.elections.map f)
    (hid : ∀ el, (f el).id = el.id) (hst : ∀ el, (f el).status = el.status)
    {e : String} (h : votes_open db e) : votes_open db' e := by
  obtain ⟨el, hel, h1, h2⟩ := h
  exact ⟨f el, hE ▸ List.mem_map_of_mem f hel, (hid el).trans h1, (hst el).trans h2⟩

/-- A sequence of client casts for one fixed voter and election, with the
chosen list and the drawn randomness varying per call. -/
def castOpsFor (u e : String) (args : List (String × String × String)) : List Op :=
  args.map fun a => Op.cast u e a.1 a.2.1 a.2.2

lemma votes_open_applyOp_cast (db : DB) (u e l vid uuid e0 : String)
    (h : votes_open db e0) : votes_open (applyOp db (.cast u e l vid uuid)) e0 := by
  simp only [applyOp]
  cases hc : client_cast_vote db u e l vid uuid with
  | error _ => exact h
  | ok p =>
    obtain ⟨db', v⟩ := p
    obtain ⟨u', -, h1, h2, h3, h4, hv, hdb⟩ := cast_vote_ok (client_cast_vote_ok hc)
    subst hv hdb
    refine votes_open_of_map _ rfl ?_ ?_ h
    · intro el
      by_cases hh : el.id = (castRow u' e l vid uuid).election_id <;> simp [hh]
    · intro el
      by_cases hh : el.id = (castRow u' e l vid uuid).election_id <;> simp [hh]

lemma votes_open_castOps (db : DB) (u e : String)
    (args : List (String × String × String)) (e0 : String) (h : votes_open db e0) :
    votes_open (runOps db (castOpsFor u e args)) e0 := by
  induction args generalizing db with
  | nil => exact h
  | cons a t ih =>
    simp only [castOpsFor, List.map_cons, runOps, List.foldl_cons]
    exact ih (applyOp db (.cast u e a.1 a.2.1 a.2.2))
      (votes_open_applyOp_cast db u e a.1 a.2.1 a.2.2 e0 h)

lemma client_cast_vote_already {db : DB} {u e : String} (l vid uuid : String)
    (h1 : votes_open db e) (h2 : already_voted db u e) :
    client_cast_vote db u e l vid uuid = .error .alreadyVoted := by
  simp only [client_cast_vote]
  rw [if_pos h1, if_pos h2]

lemma client_cast_vote_not_open {db : DB} {e : String} (u l vid uuid : String)
    (h : ¬ votes_open db e) :
    client_cast_vote db u e l vid uuid = .error .electionNotOpen := by
  simp only [client_cast_vote]
  rw [if_neg h]

lemma cast_vote_not_open {db : DB} {e : String} (u l vid uuid : String)
    (h : ¬ votes_open db e) :
    cast_vote db (some u) e l vid uuid = .error .electionNotOpen := by
  simp only [cast_vote]
  rw [if_neg h]

lemma applyOp_cast_error {db : DB} {u e l vid uuid : String} {err : CastError}
    (h : client_cast_vote db u e l vid uuid = .error err) :
    applyOp db (.cast u e l vid uuid) = db := by
  simp only [applyOp, h]

lemma applyOp_cast_invalid {db : DB} (u : String) {e l : String} (vid uuid : String)
    (h2 : ¬ list_in_election db l e) :
    applyOp db (.cast u e l vid uuid) = db := by
  simp only [applyOp]
  cases hc : client_cast_vote db u e l vid uuid with
  | error _ => rfl
  | ok p =>
    obtain ⟨db', v⟩ := p
    obtain ⟨u', -, -, hlist, -⟩ := cast_vote_ok (client_cast_vote_ok hc)
    exact absurd hlist h2

lemma not_votes_open_of {db : DB} {el : Election} {e : String} (hwf : DB.WF db)
    (hel : el ∈ db.elections) (hid : el.id = e)
    (hs : el.status ≠ ElectionStatus.voting_open) : ¬ votes_open db e := by
  rintro ⟨el', hel', hid', hst⟩
  have heq : el' = el :=
    List.inj_on_of_nodup_map hwf.1 hel' hel (hid'.trans hid.symm)
  exact hs (heq ▸ hst)

instance (op : Op) : Decidable op.wfOp := by
  cases op <;> simp only [Op.wfOp] <;> infer_instance

instance (op : Op) : Decidable op.noSim := by
  cases op <;> simp only [Op.noSim] <;> infer_instance

/-! The claims. -/

/-- Claim C9: jwt_roles concatenates the roles arrays found under both the
app_metadata and the user_metadata of the JWT, is_admin holds exactly when
the string administrator occurs in that concatenation, and the bulk-tally
procedures behave identically whether the administrator role is carried in
user_metadata or in app_metadata. -/
theorem C9_role_claims :
    (∀ a u : List String, jwt_roles ⟨some a, some u⟩ = a ++ u) ∧
    (∀ u : List String, jwt_roles ⟨none, some u⟩ = u) ∧
    (∀ j : Jwt, is_admin j ↔
      "administrator" ∈ j.app_metadata_roles.getD [] ∨
      "administrator" ∈ j.user_metadata_roles.getD []) ∧
    (∀ (db : DB) (e : String) (D : List (String × Option Int)),
      admin_apply_simulation db ⟨none, some ["administrator"]⟩ e D
        = admin_apply_simulation db ⟨some ["administrator"], none⟩ e D) ∧
    (∀ (db : DB) (e : String),
      admin_reset_election_votes db ⟨none, some ["administrator"]⟩ e
        = admin_reset_election_votes db ⟨some ["administrator"], none⟩ e) ∧
    is_admin ⟨none, some ["administrator"]⟩ := by
  have hu : is_admin ⟨none, some ["administrator"]⟩ := by decide
  have ha : is_admin ⟨some ["administrator"], none⟩ := by decide
  refine ⟨fun a u => rfl, fun u => by simp [jwt_roles], ?_, ?_, ?_, hu⟩
  · intro j
    simp [is_admin, jwt_roles]
  · intro db e D
    simp only [admin_apply_simulation]
    rw [if_pos hu, if_pos ha]
  · intro db e
    simp only [admin_reset_election_votes]
    rw [if_pos hu, if_pos ha]

/-- Concrete call of the simulation RPC with administrator privilege carried
only in user_metadata, exercising C9 on a closed instance. -/
theorem C9_role_claims_witness :
    admin_reset_election_votes
        { elections := [{ id := "e1", status := ElectionStatus.voting_open,
                          total_votes := 3 }]
          candidate_lists := []
          votes := [] }
        ⟨none, some ["administrator"]⟩ "e1"
      = admin_reset_election_votes
        { elections := [{ id := "e1", status := ElectionStatus.voting_open,
                          total_votes := 3 }]
          candidate_lists := []
          votes := [] }
        ⟨some ["administrator"], none⟩ "e1" :=
  C9_role_claims.2.2.2.2.1 _ "e1"

/-- Demo state for the count-validation claim: one open election with one
list, both counters at two. -/
def dbC10 : DB :=
  { elections := [{ id := "e1", status := ElectionStatus.voting_open, total_votes := 2 }]
    candidate_lists := [{ id := "l1", election_id := "e1", votes_count := 2 }]
    votes := [] }

/-- Claim C10: admin_apply_simulation validates no count value: a negative
count for a list of the election succeeds and decreases both that list and
the election total by that amount, below zero; a null count is treated as
zero. -/
theorem C10_simulation_counts_unvalidated :
    admin_apply_simulation dbC10 ⟨some ["administrator"], none⟩ "e1" [("l1", some (-5))]
      = .ok { elections := [{ id := "e1", status := ElectionStatus.voting_open,
                              total_votes := -3 }]
              candidate_lists := [{ id := "l1", election_id := "e1", votes_count := -3 }]
              votes := [] } ∧
    admin_apply_simulation dbC10 ⟨some ["administrator"], none⟩ "e1" [("l1", none)]
      = .ok { elections := [{ id := "e1", status := ElectionStatus.voting_open,
                              total_votes := 2 }]
              candidate_lists := [{ id := "l1", election_id := "e1", votes_count := 2 }]
              votes := [] } := by
  constructor
  · decide
  · decide

/-- Claim C5: admin_reset_election_votes run by an administrator returns a
state with a zero election total, zero counters on every list of the
election and no ballot of the election, touching nothing else, as one
all-or-nothing transition; a caller without the administrator role gets the
unauthorized error and the state is unchanged. -/
theorem C5_reset_election_votes (db : DB) (jwt : Jwt) (e : String) :
    (is_admin jwt →
      ∃ db', admin_reset_election_votes db jwt e = .ok db' ∧
        (∀ el ∈ db'.elections, el.id = e → el.total_votes = 0) ∧
        (∀ cl ∈ db'.candidate_lists, cl.election_id = e → cl.votes_count = 0) ∧
        countBallots db' e = 0 ∧
        db'.votes = db.votes.filter (fun v => ¬ v.election_id = e) ∧
        (∀ el ∈ db.elections, ¬ el.id = e → el ∈ db'.elections) ∧
        (∀ cl ∈ db.candidate_lists, ¬ cl.election_id = e → cl ∈ db'.candidate_lists)) ∧
    (¬ is_admin jwt →
      admin_reset_election_votes db jwt e = .error .unauthorized ∧
      applyOp db (.reset jwt e) = db) := by
  constructor
  · intro hadm
    refine ⟨_, by simp only [admin_reset_election_votes]; rw [if_pos hadm],
      ?_, ?_, ?_, rfl, ?_, ?_⟩
    · intro el' hel' hid
      obtain ⟨el, hel, rfl⟩ := List.mem_map.mp hel'
      by_cases hcase : el.id = e
      · rw [if_pos hcase]
      · rw [if_neg hcase] at hid ⊢
        exact absurd hid hcase
    · intro cl' hcl' hid
      obtain ⟨cl, hcl, rfl⟩ := List.mem_map.mp hcl'
      by_cases hcase : cl.election_id = e
      · rw [if_pos hcase]
      · rw [if_neg hcase] at hid ⊢
        exact absurd hid hcase
    · simp only [countBallots]
      rw [List.filter_filter, List.length_eq_zero]
      apply List.filter_eq_nil_iff.mpr
      intro a _
      simp
    · intro el hel hne
      have heq : (if el.id = e then { el with total_votes := 0 } else el) = el :=
        if_neg hne
      exact heq ▸ List.mem_map_of_mem _ hel
    · intro cl hcl hne
      have heq : (if cl.election_id = e then { cl with votes_count := 0 } else cl) = cl :=
        if_neg hne
      exact heq ▸ List.mem_map_of_mem _ hcl
  · intro hadm
    constructor
    · simp only [admin_reset_election_votes]
      rw [if_neg hadm]
    · simp only [applyOp, admin_reset_election_votes]
      rw [if_neg hadm]

/-- Demo state for the reset claim: one election, one list, one ballot. -/
def dbC5 : DB :=
  { elections := [{ id := "e1", status := ElectionStatus.voting_open, total_votes := 1 }]
    candidate_lists := [{ id := "l1", election_id := "e1", votes_count := 1 }]
    votes := [{ id := "v1", election_id := "e1", candidate_list_id := "l1",
                user_id := "u1", receipt_hash := "r1" }] }

/-- Concrete administrator reset of dbC5, exercising C5 on a closed
instance. -/
theorem C5_reset_election_votes_witness :
    ∃ db', admin_reset_election_votes dbC5 ⟨some ["administrator"], none⟩ "e1" = .ok db' ∧
      countBallots db' "e1" = 0 ∧ db'.votes = [] := by
  obtain ⟨db', hok, -, -, hcount, hvotes, -, -⟩ :=
    (C5_reset_election_votes dbC5 ⟨some ["administrator"], none⟩ "e1").1 (by decide)
  refine ⟨db', hok, hcount, ?_⟩
  rw [hvotes]
  decide

/-- Claim C6: admin_apply_simulation checks the administrator role inside the
procedure; with a valid distribution it adds each count to the matching list
counter and the total of the counts to the election counter and inserts no
ballot row; with any key that is not a list of the election it aborts as a
whole with the invalid-list error and changes nothing; without the
administrator role it fails unauthorized. -/
theorem C6_apply_simulated_distribution (db : DB) (jwt : Jwt) (e : String)
    (D : List (String × Option Int)) :
    (is_admin jwt → (∃ el ∈ db.elections, el.id = e) →
      (∀ kv ∈ D, list_in db.candidate_lists kv.1 e) →
      ∃ db', admin_apply_simulation db jwt e D = .ok db' ∧
        db'.votes = db.votes ∧
        (∀ cl ∈ db.candidate_lists, cl.election_id = e →
          ({ cl with votes_count := cl.votes_count + dist_value D cl.id } : CandidateList)
            ∈ db'.candidate_lists) ∧
        (∀ cl ∈ db.candidate_lists, ¬ cl.election_id = e → cl ∈ db'.candidate_lists) ∧
        (∀ el ∈ db.elections, el.id = e →
          ({ el with total_votes := el.total_votes + (D.map fun kv => kv.2.getD 0).sum } :
            Election) ∈ db'.elections) ∧
        (∀ el ∈ db.elections, ¬ el.id = e → el ∈ db'.elections)) ∧
    (is_admin jwt → (∃ el ∈ db.elections, el.id = e) →
      (∃ kv ∈ D, ¬ list_in db.candidate_lists kv.1 e) →
      admin_apply_simulation db jwt e D = .error .invalidList ∧
      applyOp db (.sim jwt e D) = db) ∧
    (¬ is_admin jwt → admin_apply_simulation db jwt e D = .error .unauthorized) ∧
    (∀ err, admin_apply_simulation db jwt e D = .error err →
      applyOp db (.sim jwt e D) = db) := by
  refine ⟨?_, ?_, ?_, ?_⟩
  · intro hadm hel hval
    refine ⟨_, by simp only [admin_apply_simulation]; rw [if_pos hadm, if_pos hel, if_pos hval], ?_, ?_, ?_, ?_, ?_⟩
    · rfl
    · intro cl hcl hcase
      have hm := List.mem_map_of_mem (fun cl : CandidateList =>
        if cl.election_id = e then
          { cl with votes_count := cl.votes_count + dist_value D cl.id }
        else cl) hcl
      simp only [] at hm
      rw [if_pos hcase] at hm
      exact hm
    · intro cl hcl hcase
      have hm := List.mem_map_of_mem (fun cl : CandidateList =>
        if cl.election_id = e then
          { cl with votes_count := cl.votes_count + dist_value D cl.id }
        else cl) hcl
      simp only [] at hm
      rw [if_neg hcase] at hm
      exact hm
    · intro el hel hcase
      have hm := List.mem_map_of_mem (fun el : Election =>
        if el.id = e then
          { el with total_votes := el.total_votes + (D.map fun kv => kv.2.getD 0).sum }
        else el) hel
      simp only [] at hm
      rw [if_pos hcase] at hm
      exact hm
    · intro el hel hcase
      have hm := List.mem_map_of_mem (fun el : Election =>
        if el.id = e then
          { el with total_votes := el.total_votes + (D.map fun kv => kv.2.getD 0).sum }
        else el) hel
      simp only [] at hm
      rw [if_neg hcase] at hm
      exact hm
  · intro hadm hel hbad
    have hnval : ¬ ∀ kv ∈ D, list_in db.candidate_lists kv.1 e := by
      obtain ⟨kv, hkv, hb⟩ := hbad
      exact fun hall => hb (hall kv hkv)
    constructor
    · simp only [admin_apply_simulation]
      rw [if_pos hadm, if_pos hel, if_neg hnval]
    · simp only [applyOp, admin_apply_simulation]
      rw [if_pos hadm, if_pos hel, if_neg hnval]
  · intro hadm
    simp only [admin_apply_simulation]
    rw [if_neg hadm]
  · intro err herr
    simp only [applyOp, herr]

/-- Demo state for the simulation claim: an open election with two lists and
a second election owning a third list. -/
def dbC6 : DB :=
  { elections := [{ id := "e1", status := ElectionStatus.voting_open, total_votes := 0 },
                  { id := "e2", status := ElectionStatus.voting_open, total_votes := 0 }]
    candidate_lists := [{ id := "l1", election_id := "e1", votes_count := 0 },
                        { id := "l2", election_id := "e1", votes_count := 0 },
                        { id := "l3", election_id := "e2", votes_count := 0 }]
    votes := [] }

/-- Concrete valid and mismatched simulations on dbC6, exercising C6 on
closed instances. -/
theorem C6_apply_simulated_distribution_witness :
    (∃ db', admin_apply_simulation dbC6 ⟨some ["administrator"], none⟩ "e1"
        [("l1", some 3), ("l2", some 4)] = .ok db' ∧ db'.votes = dbC6.votes) ∧
    admin_apply_simulation dbC6 ⟨some ["administrator"], none⟩ "e1" [("l3", some 3)]
      = .error .invalidList ∧
    admin_apply_simulation dbC6 ⟨none, some ["student"]⟩ "e1" [("l1", some 3)]
      = .error .unauthorized := by
  refine ⟨?_, ?_, ?_⟩
  · obtain ⟨db', hok, hvotes, -⟩ :=
      (C6_apply_simulated_distribution dbC6 ⟨some ["administrator"], none⟩ "e1"
        [("l1", some 3), ("l2", some 4)]).1 (by decide) (by decide) (by decide)
    exact ⟨db', hok, hvotes⟩
  · exact ((C6_apply_simulated_distribution dbC6 ⟨some ["administrator"], none⟩ "e1"
      [("l3", some 3)]).2.1 (by decide) (by decide) ⟨("l3", some 3), by decide, by decide⟩).1
  · exact (C6_apply_simulated_distribution dbC6 ⟨none, some ["student"]⟩ "e1"
      [("l1", some 3)]).2.2.1 (by decide)

/-- Claim C4: against an election whose status is any of the six non-open
statuses, a cast fails with ElectionNotOpen at the client check and at the
storage layer alike, and the state is unchanged; a cast can return a ballot
only when the election status is voting_open. -/
theorem C4_status_gating (db : DB) (u e l vid uuid : String) (hwf : DB.WF db) :
    (∀ el ∈ db.elections, el.id = e →
      el.status ∈ [ElectionStatus.draft, ElectionStatus.scheduled, ElectionStatus.campaign,
        ElectionStatus.paused, ElectionStatus.voting_closed,
        ElectionStatus.results_published] →
      client_cast_vote db u e l vid uuid = .error .electionNotOpen ∧
      cast_vote db (some u) e l vid uuid = .error .electionNotOpen ∧
      applyOp db (.cast u e l vid uuid) = db) ∧
    (∀ (db' : DB) (v : Vote), client_cast_vote db u e l vid uuid = .ok (db', v) →
      ∃ el ∈ db.elections, el.id = e ∧ el.status = ElectionStatus.voting_open) := by
  constructor
  · intro el hel hid hs
    have hne : el.status ≠ ElectionStatus.voting_open := by
      intro hh
      rw [hh] at hs
      exact absurd hs (by decide)
    have hnopen := not_votes_open_of hwf hel hid hne
    exact ⟨client_cast_vote_not_open u l vid uuid hnopen,
      cast_vote_not_open u l vid uuid hnopen,
      applyOp_cast_error (client_cast_vote_not_open u l vid uuid hnopen)⟩
  · intro db' v hok
    obtain ⟨u', -, hopen, -⟩ := cast_vote_ok (client_cast_vote_ok hok)
    exact hopen

/-- Demo state for the status-gating claim: one paused election. -/
def dbC4 : DB :=
  { elections := [{ id := "e1", status := ElectionStatus.paused, total_votes := 0 }]
    candidate_lists := [{ id := "l1", election_id := "e1", votes_count := 0 }]
    votes := [] }

/-- Concrete cast against the paused election of dbC4, exercising C4 on a
closed instance. -/
theorem C4_status_gating_witness :
    client_cast_vote dbC4 "u1" "e1" "l1" "v1" "r1" = .error .electionNotOpen :=
  ((C4_status_gating dbC4 "u1" "e1" "l1" "v1" "r1" (by decide)).1
    { id := "e1", status := ElectionStatus.paused, total_votes := 0 }
    (by decide) rfl (by decide)).1

/-- State refuting claim C3 as stated: a closed election e1 and an open
election e2 owning the list l2. -/
def dbC3 : DB :=
  { elections := [{ id := "e1", status := ElectionStatus.voting_closed, total_votes := 0 },
                  { id := "e2", status := ElectionStatus.voting_open, total_votes := 0 }]
    candidate_lists := [{ id := "l2", election_id := "e2", votes_count := 0 }]
    votes := [] }

/-- Claim C3 counterexample: casting under the closed election e1 for the
list l2 that belongs to e2 is a mismatched pair, yet the call fails with
ElectionNotOpen, not InvalidList: the client eligibility check rejects the
non-open election before any list validation is reached. -/
theorem C3_counterexample :
    (¬ list_in_election dbC3 "l2" "e1") ∧
    client_cast_vote dbC3 "u1" "e1" "l2" "v1" "r1" = .error .electionNotOpen ∧
    ¬ client_cast_vote dbC3 "u1" "e1" "l2" "v1" "r1" = .error .invalidList := by
  refine ⟨by decide, by decide, by decide⟩

/-- Claim C3 (amended): a cast whose candidate list does not belong to the
given election never succeeds and never inserts a ballot row, for every
such mismatched pair, at the bare RPC as well as through the client path:
the pairing clause of the insert policy, backed by the composite constraint
spanning (candidate_list_id, election_id), makes success impossible.  The
InvalidList error name of the original claim does not hold universally:
against a non-open election the call fails with ElectionNotOpen, reported
by the client eligibility check. -/
theorem C3_pairing_integrity (db : DB) (u e l vid uuid : String)
    (hmis : ¬ list_in_election db l e) :
    (∀ (db' : DB) (v : Vote), ¬ cast_vote db (some u) e l vid uuid = .ok (db', v)) ∧
    (∀ (db' : DB) (v : Vote), ¬ client_cast_vote db u e l vid uuid = .ok (db', v)) ∧
    applyOp db (.cast u e l vid uuid) = db ∧
    (¬ votes_open db e → client_cast_vote db u e l vid uuid = .error .electionNotOpen) := by
  refine ⟨?_, ?_, applyOp_cast_invalid u vid uuid hmis,
    fun hno => client_cast_vote_not_open u l vid uuid hno⟩
  · intro db' v hok
    obtain ⟨u', -, -, hlist, -⟩ := cast_vote_ok hok
    exact hmis hlist
  · intro db' v hok
    obtain ⟨u', -, -, hlist, -⟩ := cast_vote_ok (client_cast_vote_ok hok)
    exact hmis hlist

/-- Concrete mismatched cast on dbC3 inserting nothing and reporting the
not-open error, exercising the amended C3 on a closed instance. -/
theorem C3_pairing_integrity_witness :
    applyOp dbC3 (.cast "u2" "e1" "l2" "v2" "r2") = dbC3 ∧
    client_cast_vote dbC3 "u2" "e1" "l2" "v2" "r2" = .error .electionNotOpen := by
  have h := C3_pairing_integrity dbC3 "u2" "e1" "l2" "v2" "r2" (by decide)
  exact ⟨h.2.2.1, h.2.2.2 (by decide)⟩

/-- Claim C8: no operation of the authenticated interface updates or removes
an existing ballot row: casts only add a row, simulations and election
updates leave the vote table untouched, and the administrative reset is the
sole deleter, removing exactly the ballots of one whole election at once
(and nothing at all for a caller without the administrator role). -/
theorem C8_ballot_immutability (db : DB) :
    (∀ u e l vid uuid, ∀ v ∈ db.votes, v ∈ (applyOp db (.cast u e l vid uuid)).votes) ∧
    (∀ jwt e D, (applyOp db (.sim jwt e D)).votes = db.votes) ∧
    (∀ jwt e s, (applyOp db (.setStatus jwt e s)).votes = db.votes) ∧
    (∀ jwt e, is_admin jwt →
      (applyOp db (.reset jwt e)).votes = db.votes.filter fun v => ¬ v.election_id = e) ∧
    (∀ jwt e, ¬ is_admin jwt → (applyOp db (.reset jwt e)).votes = db.votes) := by
  refine ⟨?_, ?_, ?_, ?_, ?_⟩
  · intro u e l vid uuid v hv
    simp only [applyOp]
    cases hc : client_cast_vote db u e l vid uuid with
    | error _ => exact hv
    | ok p =>
      obtain ⟨db', w⟩ := p
      obtain ⟨u', -, -, -, -, -, hw, hdb⟩ := cast_vote_ok (client_cast_vote_ok hc)
      subst hw hdb
      exact List.mem_cons_of_mem _ hv
  · intro jwt e D
    simp only [applyOp]
    cases hc : admin_apply_simulation db jwt e D with
    | error _ => rfl
    | ok db' =>
      obtain ⟨-, -, -, hdb⟩ := admin_apply_simulation_ok hc
      subst hdb
      rfl
  · intro jwt e s
    simp only [applyOp]
    cases hc : admin_update_election db jwt e s with
    | error _ => rfl
    | ok db' =>
      obtain ⟨-, hdb⟩ := admin_update_election_ok hc
      subst hdb
      rfl
  · intro jwt e hadm
    simp only [applyOp, admin_reset_election_votes]
    rw [if_pos hadm]
  · intro jwt e hadm
    simp only [applyOp, admin_reset_election_votes]
    rw [if_neg hadm]

/-- Demo state for the immutability claim: one recorded ballot for e1. -/
def dbC8 : DB :=
  { elections := [{ id := "e1", status := ElectionStatus.voting_open, total_votes := 1 },
                  { id := "e2", status := ElectionStatus.voting_open, total_votes := 0 }]
    candidate_lists := [{ id := "l1", election_id := "e1", votes_count := 1 }]
    votes := [{ id := "v1", election_id := "e1", candidate_list_id := "l1",
                user_id := "u1", receipt_hash := "r1" }] }

/-- The recorded ballot of dbC8 survives a later cast by another voter and a
reset of the other election, exercising C8 on closed instances. -/
theorem C8_ballot_immutability_witness :
    ({ id := "v1", election_id := "e1", candidate_list_id := "l1",
       user_id := "u1", receipt_hash := "r1" } : Vote)
      ∈ (applyOp dbC8 (.cast "u2" "e1" "l1" "v2" "r2")).votes ∧
    (applyOp dbC8 (.reset ⟨some ["administrator"], none⟩ "e2")).votes
      = dbC8.votes.filter fun v => ¬ v.election_id = "e2" := by
  constructor
  · exact (C8_ballot_immutability dbC8).1 "u2" "e1" "l1" "v2" "r2" _ (by decide)
  · exact (C8_ballot_immutability dbC8).2.2.2.1 ⟨some ["administrator"], none⟩ "e2"
      (by decide)

/-- Claim C7: in every state reached from a well-formed state the receipt
tokens of the ballots are pairwise distinct, guaranteed by the unique index
on receipt_hash that the insert is checked against; and the receipt stored
by any successful cast is make_receipt of the drawn randomness alone, the
same function value whatever candidate list (or any other ballot content)
the cast carries. -/
theorem C7_receipt_uniqueness_and_opacity (db : DB) (ops : List Op) (hwf : DB.WF db) :
    ((runOps db ops).votes.map Vote.receipt_hash).Nodup ∧
    (∀ (db0 : DB) (uid : Option String) (e l vid uuid : String) (db' : DB) (v : Vote),
      cast_vote db0 uid e l vid uuid = .ok (db', v) →
      v.receipt_hash = make_receipt uuid) := by
  refine ⟨(wf_runOps db ops hwf).2.2.2.1, ?_⟩
  intro db0 uid e l vid uuid db' v h
  obtain ⟨u, -, -, -, -, -, hv, -⟩ := cast_vote_ok h
  rw [hv]
  rfl

/-- Demo state for the receipt claim. -/
def dbC7 : DB :=
  { elections := [{ id := "e1", status := ElectionStatus.voting_open, total_votes := 0 }]
    candidate_lists := [{ id := "l1", election_id := "e1", votes_count := 0 }]
    votes := [] }

/-- Two concrete casts on dbC7 keep the receipts pairwise distinct, and a
concrete successful cast stores exactly make_receipt of its randomness,
exercising C7 on closed instances. -/
theorem C7_receipt_uniqueness_and_opacity_witness :
    ((runOps dbC7 [Op.cast "u1" "e1" "l1" "v1" "ra-1",
        Op.cast "u2" "e1" "l1" "v2" "rb-2"]).votes.map Vote.receipt_hash).Nodup ∧
    (castRow "u1" "e1" "l1" "v1" "ab-cd").receipt_hash = make_receipt "ab-cd" := by
  constructor
  · exact (C7_receipt_uniqueness_and_opacity dbC7 _ (by decide)).1
  · exact (C7_receipt_uniqueness_and_opacity dbC7 [] (by decide)).2 dbC7 (some "u1")
      "e1" "l1" "v1" "ab-cd" _ _
      (cast_vote_ok_of (by decide) (by decide) (by decide) (by decide))

/-- Claim C1: after any sequence of casts by one voter in one election, at
most one ballot row carries that (voter, election) pair; the guarantee is
the storage uniqueness constraint itself, which keeps the pair column
duplicate-free under the bare cast_vote RPC with no client pre-check
involved; and once a ballot for the pair exists, a further cast fails with
AlreadyVoted and leaves the state, hence the first ballot, unchanged. -/
theorem C1_one_ballot_per_voter_and_election (db : DB) (u e : String)
    (args : List (String × String × String)) (hwf : DB.WF db) :
    ((runOps db (castOpsFor u e args)).votes.filter fun v =>
        v.user_id = u ∧ v.election_id = e).length ≤ 1 ∧
    (∀ (db0 : DB) (uid : Option String) (l vid uuid : String) (db' : DB) (v : Vote),
      (db0.votes.map pairKey).Nodup → cast_vote db0 uid e l vid uuid = .ok (db', v) →
      (db'.votes.map pairKey).Nodup) ∧
    (votes_open db e →
      ∀ w ∈ (runOps db (castOpsFor u e args)).votes, w.user_id = u → w.election_id = e →
        ∀ l vid uuid,
          client_cast_vote (runOps db (castOpsFor u e args)) u e l vid uuid
            = .error .alreadyVoted ∧
          applyOp (runOps db (castOpsFor u e args)) (.cast u e l vid uuid)
            = runOps db (castOpsFor u e args)) := by
  refine ⟨?_, ?_, ?_⟩
  · exact filter_pair_le_one _ (wf_runOps db _ hwf).2.2.1 u e
  · intro db0 uid l vid uuid db' v hnd hok
    obtain ⟨u', -, -, -, h3, -, hv, hdb⟩ := cast_vote_ok hok
    subst hv hdb
    show ((castRow u' e l vid uuid :: db0.votes).map pairKey).Nodup
    rw [List.map_cons]
    refine List.nodup_cons.mpr ⟨?_, hnd⟩
    intro hm
    obtain ⟨w, hw, hwp⟩ := List.mem_map.mp hm
    exact h3 ⟨w, hw, congrArg Prod.fst hwp, congrArg Prod.snd hwp⟩
  · intro hopen w hw hu he l vid uuid
    have hopenR := votes_open_castOps db u e args e hopen
    have halready : already_voted (runOps db (castOpsFor u e args)) u e := ⟨w, hw, hu, he⟩
    have herr := client_cast_vote_already l vid uuid hopenR halready
    exact ⟨herr, applyOp_cast_error herr⟩

/-- Demo state for the uniqueness claim: one open election with one list and
no ballot yet. -/
def dbC1 : DB :=
  { elections := [{ id := "e1", status := ElectionStatus.voting_open, total_votes := 0 }]
    candidate_lists := [{ id := "l1", election_id := "e1", votes_count := 0 }]
    votes := [] }

/-- After one concrete successful cast on dbC1 a second concrete cast fails
with AlreadyVoted and at most one ballot carries the pair, exercising C1 on
a closed instance. -/
theorem C1_one_ballot_per_voter_and_election_witness :
    client_cast_vote (runOps dbC1 (castOpsFor "u1" "e1" [("l1", "v1", "r1")]))
        "u1" "e1" "l1" "v2" "r2" = .error .alreadyVoted ∧
    ((runOps dbC1 (castOpsFor "u1" "e1" [("l1", "v1", "r1")])).votes.filter fun v =>
        v.user_id = "u1" ∧ v.election_id = "e1").length ≤ 1 := by
  have h := C1_one_ballot_per_voter_and_election dbC1 "u1" "e1" [("l1", "v1", "r1")]
    (by decide)
  refine ⟨?_, h.1⟩
  exact (h.2.2 (by decide) (castRow "u1" "e1" "l1" "v1" "r1") (by decide) rfl rfl
    "l1" "v2" "r2").1

/-- Demo state for the tally claim: one open election with one list, all
counters zero, no ballots, satisfying the full three-way equality. -/
def dbC2 : DB :=
  { elections := [{ id := "e1", status := ElectionStatus.voting_open, total_votes := 0 }]
    candidate_lists := [{ id := "l1", election_id := "e1", votes_count := 0 }]
    votes := [] }

/-- Claim C2 counterexample: from the well-formed state dbC2 satisfying the
full three-way tally equality, one completed ApplySimulatedDistribution (a
legal sequence of casts and simulations) leaves total_votes at five while
zero ballot rows reference the election, so total_votes no longer equals
the number of ballot rows. -/
theorem C2_counterexample :
    DB.WF dbC2 ∧ fullTallyInv dbC2 ∧
    ¬ fullTallyInv (runOps dbC2
      [Op.sim ⟨some ["administrator"], none⟩ "e1" [("l1", some 5)]]) := by
  refine ⟨by decide, by decide, by decide⟩

/-- Claim C2 (amended): after any sequence of completed casts and simulated
distributions from a well-formed consistent state, every election total
equals the sum of the vote counters of its candidate lists; the second
equality of the original claim, with the number of ballot rows, holds
across any sequence that contains no simulated distribution (simulations
change counters without inserting ballots). -/
theorem C2_tally_consistency (db : DB) (ops : List Op) (hwf : DB.WF db)
    (hops : ∀ op ∈ ops, op.wfOp) (hinv : tallyInv db) :
    tallyInv (runOps db ops) ∧
    ((∀ op ∈ ops, op.noSim) → fullTallyInv db → fullTallyInv (runOps db ops)) :=
  ⟨tallyInv_runOps db ops hwf hops hinv,
    fun hns hfull => fullTallyInv_runOps db ops hwf hns hfull⟩

/-- Concrete runs on dbC2: a cast followed by a simulation keeps the
counter-sum equality, and the cast alone keeps the full equality,
exercising the amended C2 on closed instances. -/
theorem C2_tally_consistency_witness :
    tallyInv (runOps dbC2 [Op.cast "u1" "e1" "l1" "v1" "r1",
      Op.sim ⟨some ["administrator"], none⟩ "e1" [("l1", some 5)]]) ∧
    fullTallyInv (runOps dbC2 [Op.cast "u1" "e1" "l1" "v1" "r1"]) := by
  have h := C2_tally_consistency dbC2 [Op.cast "u1" "e1" "l1" "v1" "r1",
    Op.sim ⟨some ["administrator"], none⟩ "e1" [("l1", some 5)]]
    (by decide) (by decide) (by decide)
  have h2 := C2_tally_consistency dbC2 [Op.cast "u1" "e1" "l1" "v1" "r1"]
    (by decide) (by decide) (by decide)
  exact ⟨h.1, h2.2 (by decide) (by decide)⟩

end Crusade
